import Mathlib

/-!
Shallow embedding of the FinanceHub harmonization pipeline
(`src/attached_assets/backfill_fred_merge_1754721621497.py` and the
row-by-row database import scripts `src/import_economic_data.py`,
`src/import_comprehensive_economic_data.py`).

Modelling conventions:
* pandas cell values are modelled by `PVal`: a missing value (`NaN`/`pd.NA`),
  a finite numeric value (modelled by `ℚ`; IEEE rounding is out of scope,
  all claim arithmetic is exact), or a signed infinity.  numpy division by
  zero yields a signed infinity (or `NaN` for `0/0`), and `pd.notna` is
  `true` on infinities; both facts are reflected in `PVal` arithmetic.
* calendar dates are a `(year, month, day)` structure; `Date.toDays` is the
  standard civil-calendar day count used for the 2-day `merge_asof`
  tolerance.
* `Series.pct_change(n)` in the pandas versions contemporary with the
  script forward-fills missing values before dividing (`fill_method="pad"`
  default); `pctChangeVals` reproduces this.
* `groupby(...).last()` takes the last NON-NULL value of each group, while
  `groupby(...)["date"].idxmax()` takes the row with the maximal date (first
  occurrence on ties); both are modelled separately.
* `df.drop_duplicates(subset=REQUIRED_COLS, keep="last")` keeps the last
  occurrence of each exact tuple, preserving positions (`dedupLast`).
* multi-column `sort_values` in pandas is a stable lexicographic sort
  (`np.lexsort`); it is modelled by `List.insertionSort` over the
  lexicographic key, which is stable.
* `...dt.to_period("M").dt.to_timestamp("M")` re-dates to the FIRST day of
  the month (`Period.to_timestamp` anchors at the period start unless
  `how="end"` is passed); this is modelled by `Date.monthStart`.
-/

/-- A pandas cell value: missing (`NaN` / `pd.NA`), a finite number, or a
signed infinity produced by numpy division by zero. -/
inductive PVal where
  | na : PVal
  | num (q : ℚ) : PVal
  | posInf : PVal
  | negInf : PVal
deriving DecidableEq, Repr

namespace PVal

/-- pandas `notna`: true for finite numbers AND infinities, false for NaN/NA. -/
def notna : PVal → Bool
  | na => false
  | _ => true

/-- Float subtraction lifted to `PVal` (NaN propagates, `inf - inf = NaN`). -/
def sub : PVal → PVal → PVal
  | na, _ => na
  | _, na => na
  | num a, num b => num (a - b)
  | num _, posInf => negInf
  | num _, negInf => posInf
  | posInf, num _ => posInf
  | negInf, num _ => negInf
  | posInf, negInf => posInf
  | negInf, posInf => negInf
  | posInf, posInf => na
  | negInf, negInf => na

/-- Float division lifted to `PVal`: division by zero follows IEEE/numpy
(`x/0 = ±inf` for `x ≠ 0`, `0/0 = NaN`). -/
def div : PVal → PVal → PVal
  | na, _ => na
  | _, na => na
  | num a, num b =>
      if b = 0 then (if 0 < a then posInf else if a < 0 then negInf else na)
      else num (a / b)
  | posInf, num b => if b < 0 then negInf else posInf
  | negInf, num b => if b < 0 then posInf else negInf
  | num _, posInf => num 0
  | num _, negInf => num 0
  | posInf, posInf => na
  | posInf, negInf => na
  | negInf, posInf => na
  | negInf, negInf => na

/-- Float multiplication lifted to `PVal` (`inf * 0 = NaN`). -/
def mul : PVal → PVal → PVal
  | na, _ => na
  | _, na => na
  | num a, num b => num (a * b)
  | posInf, num b => if 0 < b then posInf else if b < 0 then negInf else na
  | num a, posInf => if 0 < a then posInf else if a < 0 then negInf else na
  | negInf, num b => if 0 < b then negInf else if b < 0 then posInf else na
  | num a, negInf => if 0 < a then negInf else if a < 0 then posInf else na
  | posInf, posInf => posInf
  | negInf, negInf => posInf
  | posInf, negInf => negInf
  | negInf, posInf => negInf

/-- Fourth power, as used by `(q/q.shift(1))**4` (`(-inf)**4 = +inf`). -/
def pow4 : PVal → PVal
  | na => na
  | num a => num (a ^ 4)
  | posInf => posInf
  | negInf => posInf

/-- True exactly on finite numeric values. -/
def isNum : PVal → Bool
  | num _ => true
  | _ => false

end PVal

/-- A calendar date, as carried in the `date` / `period_date` columns. -/
structure Date where
  year : Nat
  month : Nat
  day : Nat
deriving DecidableEq, Repr

namespace Date

/-- Lexicographic sort key of a date, used for all date comparisons. -/
def key (d : Date) : Lex (Nat × Lex (Nat × Nat)) :=
  toLex (d.year, toLex (d.month, d.day))

/-- Leap-year rule of the Gregorian calendar. -/
def isLeap (y : Nat) : Bool :=
  y % 4 = 0 && (y % 100 ≠ 0 || y % 400 = 0)

/-- Number of days in a given month of a given year. -/
def daysInMonth (y m : Nat) : Nat :=
  if m = 2 then (if isLeap y then 29 else 28)
  else if m = 4 ∨ m = 6 ∨ m = 9 ∨ m = 11 then 30
  else 31

/-- Whether a date is the last calendar day of its month. -/
def isMonthEnd (d : Date) : Bool :=
  d.day = daysInMonth d.year d.month

/-- The first day of the month of `d`.  This is what
`.dt.to_period("M").dt.to_timestamp("M")` produces for every date of the
month (`Period.to_timestamp` anchors at the period start by default). -/
def monthStart (d : Date) : Date :=
  ⟨d.year, d.month, 1⟩

/-- Days since the civil epoch (standard `days_from_civil` algorithm);
used to measure the `merge_asof` tolerance in calendar days. -/
def toDays (d : Date) : Int :=
  let y : Int := (d.year : Int) - (if d.month ≤ 2 then 1 else 0)
  let m : Int := (d.month : Int)
  let era : Int := (if 0 ≤ y then y else y - 399) / 400
  let yoe : Int := y - era * 400
  let mp : Int := (m + 9) % 12
  let doy : Int := (153 * mp + 2) / 5 + (d.day : Int) - 1
  let doe : Int := yoe * 365 + yoe / 4 - yoe / 100 + doy
  era * 146097 + doe - 719468

end Date

/-- Absolute distance between two dates in calendar days. -/
def dateDist (a b : Date) : Nat :=
  (a.toDays - b.toDays).natAbs

/-- One raw or derived observation: a `(date, value)` row of the pandas
frames produced by `fred_fetch_series` and the transforms. -/
structure Obs where
  date : Date
  value : PVal
deriving DecidableEq, Repr

instance : Inhabited Obs := ⟨⟨⟨0, 0, 0⟩, PVal.na⟩⟩

/-- Date order on observations (the `sort_values("date")` key). -/
def obsLe (a b : Obs) : Prop := a.date.key ≤ b.date.key

instance : DecidableRel obsLe := fun a b => inferInstanceAs (Decidable (_ ≤ _))

/-- `df.sort_values("date")`, modelled as a stable sort by date. -/
def sortObs (df : List Obs) : List Obs :=
  List.insertionSort obsLe df

/-- Forward-fill helper: `carry` is the last non-missing value seen so far. -/
def ffillAux : Option PVal → List PVal → List PVal
  | _, [] => []
  | carry, v :: vs =>
      if v = PVal.na then
        (carry.getD PVal.na) :: ffillAux carry vs
      else
        v :: ffillAux (some v) vs

/-- `Series.fillna(method="pad")`: forward-fill missing values. -/
def ffill (vs : List PVal) : List PVal :=
  ffillAux none vs

/-- `Series.pct_change(n)` with the default `fill_method="pad"`:
forward-fill, then `filled / filled.shift(n) - 1` (the first `n` positions
divide by the `NaN` introduced by `shift` and hence are `NaN`). -/
def pctChangeVals (n : Nat) (vs : List PVal) : List PVal :=
  let f := ffill vs
  (List.range vs.length).map fun i =>
    if i < n then PVal.na
    else ((f.getD i PVal.na).div (f.getD (i - n) PVal.na)).sub (PVal.num 1)

/-- The value column of `gdp_qoq_annualized`:
`((value / value.shift(1)) ** 4 - 1) * 100`, without forward-fill. -/
def qoqAnnualizedVals (vs : List PVal) : List PVal :=
  (List.range vs.length).map fun i =>
    if i < 1 then PVal.na
    else ((((vs.getD i PVal.na).div (vs.getD (i - 1) PVal.na)).pow4).sub
      (PVal.num 1)).mul (PVal.num 100)

/-- The three derived-transform kinds of `compute_transform`. -/
inductive TKind where
  | yoy_pct : TKind
  | mom_pct : TKind
  | gdp_qoq_annualized : TKind
deriving DecidableEq, Repr

/-- `compute_transform`: sort by date, then replace the value column by the
requested derived series, keeping the dates unchanged. -/
def compute_transform (kind : TKind) (df : List Obs) : List Obs :=
  let s := sortObs df
  let vs := s.map (·.value)
  let newVals :=
    match kind with
    | TKind.yoy_pct => (pctChangeVals 12 vs).map (·.mul (PVal.num 100))
    | TKind.mom_pct => (pctChangeVals 1 vs).map (·.mul (PVal.num 100))
    | TKind.gdp_qoq_annualized => qoqAnnualizedVals vs
  List.zipWith (fun d v => Obs.mk d v) (s.map (·.date)) newVals

/-- Date order used when sorting group keys. -/
def dateLe (a b : Date) : Prop := a.key ≤ b.key

instance : DecidableRel dateLe := fun a b => inferInstanceAs (Decidable (_ ≤ _))

/-- The sorted list of distinct month keys (`groupby` sorts its keys). -/
def monthKeys (df : List Obs) : List Date :=
  List.insertionSort dateLe ((df.map (fun o => o.date.monthStart)).dedup)

/-- `groupby(...).last()` on the value column: the last NON-NULL entry of
the group, or `NaN` if the whole group is missing. -/
def lastNonNa (vs : List PVal) : PVal :=
  match (vs.filter (fun v => v ≠ PVal.na)).getLast? with
  | some v => v
  | none => PVal.na

/-- The daily→monthly path of `main` (also the tail of the spread branch):
`df["date"] = df["date"].dt.to_period("M").dt.to_timestamp("M")` followed by
`df.groupby("date", as_index=False).last()`.  Dates collapse to the FIRST
day of each month and each month keeps its last non-null value. -/
def dailyToMonthly (df : List Obs) : List Obs :=
  (monthKeys df).map fun k =>
    ⟨k, lastNonNa ((df.filter (fun o => o.date.monthStart = k)).map (·.value))⟩

/-- The row of a group holding the maximal date, first occurrence winning
ties — this is `groupby("month")["date"].idxmax()`. -/
def argmaxDate : List Obs → Option Obs
  | [] => none
  | o :: rest =>
      match argmaxDate rest with
      | none => some o
      | some b => if o.date.key < b.date.key then some b else some o

/-- `align_weekly_to_month_end`: per month (sorted), take the row whose
`date` is maximal and re-date it to the month key produced by
`to_period("M").to_timestamp("M")` (the first day of the month). -/
def align_weekly_to_month_end (df : List Obs) : List Obs :=
  (monthKeys df).map fun k =>
    match argmaxDate (df.filter (fun o => o.date.monthStart = k)) with
    | some o => ⟨k, o.value⟩
    | none => ⟨k, PVal.na⟩

/-- The nearest `b`-observation within the 2-day `merge_asof` tolerance,
earlier date winning distance ties (pandas prefers the backward match). -/
def nearestWithin (d : Date) (b : List Obs) : Option Obs :=
  b.foldl
    (fun acc o =>
      if dateDist o.date d ≤ 2 then
        match acc with
        | none => some o
        | some cur => if dateDist o.date d < dateDist cur.date d then some o else some cur
      else acc)
    none

/-- `pd.merge_asof(a, b, on="date", direction="nearest",
tolerance=pd.Timedelta("2D"))` followed by `value = value_a - value_b`:
a LEFT join on `a`'s rows; an `a`-row with no `b`-date within two days
keeps a missing `value_b`, so its spread value is missing. -/
def spreadAlign (a b : List Obs) : List Obs :=
  (sortObs a).map fun o =>
    match nearestWithin o.date (sortObs b) with
    | some ob => ⟨o.date, o.value.sub ob.value⟩
    | none => ⟨o.date, PVal.na⟩

/-- The full spread computation of the `"spread"` branch of `main`:
nearest-date alignment, subtraction, then month aggregation. -/
def spreadCompute (a b : List Obs) : List Obs :=
  dailyToMonthly (spreadAlign a b)

/-- `DEFAULT_TYPE_MAP.get(metric, "")`: the leading/coincident/lagging
classification table of the script. -/
def DEFAULT_TYPE_MAP : String → String
  | "10-Year Treasury Yield" => "leading"
  | "Yield Curve (10yr-2yr)" => "leading"
  | "Building Permits" => "leading"
  | "Consumer Confidence Index" => "leading"
  | "Leading Economic Index" => "leading"
  | "Manufacturers New Orders: Durable Goods" => "leading"
  | "Manufacturing PMI" => "leading"
  | "Michigan Consumer Sentiment" => "leading"
  | "Stock Prices (S&P 500)" => "leading"
  | "Average Weekly Hours" => "leading"
  | "Average Weekly Hours of Production Employees: Manufacturing" => "leading"
  | "Industrial Production" => "coincident"
  | "Industrial Production Index" => "coincident"
  | "Real Gross Domestic Product" => "coincident"
  | "Nonfarm Payrolls" => "coincident"
  | "Total Nonfarm Payrolls" => "coincident"
  | "Employment to Population Ratio" => "coincident"
  | "Employment Population Ratio" => "coincident"
  | "Retail Sales" => "coincident"
  | "Retail Sales Ex-Auto" => "coincident"
  | "Retail Sales: Food Services" => "coincident"
  | "Capacity Utilization (Mfg)" => "coincident"
  | "Commercial & Industrial Loans" => "coincident"
  | "Total Construction Spending" => "coincident"
  | "Total Consumer Credit Outstanding" => "coincident"
  | "US Dollar Index" => "coincident"
  | "US / Euro Foreign Exchange Rate" => "coincident"
  | "Unemployment Rate" => "lagging"
  | "U-6 Unemployment Rate" => "lagging"
  | "Continuing Claims" => "lagging"
  | "Continuing Jobless Claims" => "lagging"
  | "Core CPI" => "lagging"
  | "Core CPI Year-over-Year" => "lagging"
  | "CPI All Items" => "lagging"
  | "CPI Energy" => "lagging"
  | "CPI Year-over-Year" => "lagging"
  | "PCE Price Index" => "lagging"
  | "PCE Price Index YoY" => "lagging"
  | "Core PCE Price Index" => "lagging"
  | "Core Personal Consumption Expenditures" => "lagging"
  | "Personal Consumption Expenditures" => "lagging"
  | "PPI All Commodities" => "lagging"
  | "PPI Final Demand" => "lagging"
  | "Producer Price Index: Final Demand" => "lagging"
  | "Average Hourly Earnings" => "lagging"
  | "Average Hourly Earnings of All Employees" => "lagging"
  | _ => ""

/-- `DEFAULT_CATEGORY_MAP.get(metric, "")`: the category table of the
script. -/
def DEFAULT_CATEGORY_MAP : String → String
  | "10-Year Treasury Yield" => "Monetary Policy"
  | "30-Year Fixed Rate Mortgage Average" => "Monetary Policy"
  | "30-Year Mortgage Rate" => "Monetary Policy"
  | "Federal Funds Rate" => "Monetary Policy"
  | "Yield Curve (10yr-2yr)" => "Monetary Policy"
  | "US Dollar Index" => "Monetary Policy"
  | "US / Euro Foreign Exchange Rate" => "Monetary Policy"
  | "Core CPI" => "Inflation"
  | "Core CPI Year-over-Year" => "Inflation"
  | "Core PCE Price Index" => "Inflation"
  | "Core Personal Consumption Expenditures" => "Inflation"
  | "Core PPI" => "Inflation"
  | "CPI All Items" => "Inflation"
  | "CPI Energy" => "Inflation"
  | "CPI Year-over-Year" => "Inflation"
  | "PCE Price Index" => "Inflation"
  | "PCE Price Index YoY" => "Inflation"
  | "PPI All Commodities" => "Inflation"
  | "PPI Final Demand" => "Inflation"
  | "Producer Price Index: Final Demand" => "Inflation"
  | "Gasoline Prices" => "Inflation"
  | "US Regular All Formulations Gas Price" => "Inflation"
  | "Unemployment Rate" => "Labor"
  | "U-6 Unemployment Rate" => "Labor"
  | "Labor Force Participation Rate" => "Labor"
  | "Average Hourly Earnings" => "Labor"
  | "Average Hourly Earnings of All Employees" => "Labor"
  | "All Employees: Manufacturing" => "Labor"
  | "Manufacturing Employment" => "Labor"
  | "Nonfarm Payrolls" => "Labor"
  | "Total Nonfarm Payrolls" => "Labor"
  | "Initial Jobless Claims" => "Labor"
  | "Continuing Claims" => "Labor"
  | "Continuing Jobless Claims" => "Labor"
  | "Employment Population Ratio" => "Labor"
  | "Employment to Population Ratio" => "Labor"
  | "JOLTS Job Openings" => "Labor"
  | "JOLTS Hires" => "Labor"
  | "JOLTS Quits" => "Labor"
  | "Job Openings and Labor Turnover Survey: Quits" => "Labor"
  | "Average Weekly Hours" => "Labor"
  | "Average Weekly Hours of Production Employees: Manufacturing" => "Labor"
  | "Manufacturing Hours" => "Labor"
  | "GDP Growth Rate" => "Growth"
  | "Real Gross Domestic Product" => "Growth"
  | "Retail Sales" => "Growth"
  | "Retail Sales MoM" => "Growth"
  | "Retail Sales Ex-Auto" => "Growth"
  | "Retail Sales: Food Services" => "Growth"
  | "E-commerce Retail Sales" => "Growth"
  | "Industrial Production" => "Growth"
  | "Industrial Production Index" => "Growth"
  | "Industrial Production YoY" => "Growth"
  | "Capacity Utilization (Mfg)" => "Growth"
  | "Manufacturers New Orders: Durable Goods" => "Growth"
  | "Durable Goods Orders" => "Growth"
  | "Durable Goods Orders MoM" => "Growth"
  | "Total Construction Spending" => "Growth"
  | "Existing Home Sales" => "Growth"
  | "New Home Sales" => "Growth"
  | "Housing Starts" => "Growth"
  | "Building Permits" => "Growth"
  | "Personal Consumption Expenditures" => "Growth"
  | "Real Disposable Personal Income" => "Growth"
  | "Personal Savings Rate" => "Growth"
  | "Total Business: Inventories to Sales Ratio" => "Growth"
  | "Inventories to Sales Ratio" => "Growth"
  | "Total Consumer Credit Outstanding" => "Growth"
  | "Consumer Confidence Index" => "Sentiment"
  | "Michigan Consumer Sentiment" => "Sentiment"
  | "S&P Global Manufacturing PMI" => "Sentiment"
  | "Manufacturing PMI" => "Sentiment"
  | "Leading Economic Index" => "Sentiment"
  | "Chicago Fed National Activity Index" => "Sentiment"
  | _ => ""

/-- A row of the merged historical table: the eight `REQUIRED_COLS` of the
script (the spec counts the seven non-key fields plus `period_date` as its
seven-field dedup tuple; `drop_duplicates` uses all of them).  String
columns may be missing in the CSVs, hence `Option String`. -/
structure HRecord where
  metric_name : Option String
  series_id : Option String
  type_ : Option String
  category : Option String
  unit : Option String
  frequency : Option String
  value : PVal
  period_date : Date
deriving DecidableEq, Repr

/-- Python `str.strip()`: drop leading and trailing whitespace characters
(modelled on the underlying character list, whitespace per
`Char.isWhitespace`). -/
def pyStrip (s : String) : String :=
  ⟨((s.data.dropWhile Char.isWhitespace).reverse.dropWhile
      Char.isWhitespace).reverse⟩

/-- `col.fillna("").astype(str).str.strip()` on one cell. -/
def normStr (s : Option String) : Option String :=
  some (pyStrip (s.getD ""))

/-- The string normalization the merge applies to the columns
`unit, frequency, series_id, metric_name, type, category`. -/
def normalizeRec (r : HRecord) : HRecord :=
  { r with
    metric_name := normStr r.metric_name
    series_id := normStr r.series_id
    type_ := normStr r.type_
    category := normStr r.category
    unit := normStr r.unit
    frequency := normStr r.frequency }

/-- A record the merge normalization leaves unchanged (trimmed, non-null
string columns). -/
def normalizedRec (r : HRecord) : Prop :=
  normalizeRec r = r

instance (r : HRecord) : Decidable (normalizedRec r) :=
  inferInstanceAs (Decidable (_ = _))

/-- `drop_duplicates(keep="last")`: keep each row exactly when no later row
equals it, preserving the positions of the kept rows. -/
def dedupLast {α : Type} [DecidableEq α] : List α → List α
  | [] => []
  | x :: xs => if x ∈ xs then dedupLast xs else x :: dedupLast xs

/-- A missing string sorts last (`na_position="last"`); present strings
compare lexicographically by code points (python string order), via their
character lists. -/
def optTop : Option String → WithTop (List Char)
  | none => ⊤
  | some s => (s.data : WithTop (List Char))

/-- The lexicographic `(metric_name, series_id, period_date)` sort key of
`sort_values(["metric_name","series_id","period_date"])`. -/
def recKey (r : HRecord) :
    Lex (WithTop (List Char) ×
      Lex (WithTop (List Char) × Lex (Nat × Lex (Nat × Nat)))) :=
  toLex (optTop r.metric_name, toLex (optTop r.series_id, r.period_date.key))

/-- The sort relation of the final ordering. -/
def recLe (a b : HRecord) : Prop := recKey a ≤ recKey b

instance : DecidableRel recLe := fun a b => inferInstanceAs (Decidable (_ ≤ _))

/-- The Merge & Dedup Engine (`main`, lines 564-573): concatenate existing
and incoming, drop exact duplicates keeping the last occurrence, normalize
the string columns, and stably sort by `(metric_name, series_id,
period_date)`. -/
def mergeRecords (existing incoming : List HRecord) : List HRecord :=
  List.insertionSort recLe ((dedupLast (existing ++ incoming)).map normalizeRec)

/-- The merge as invoked by the pipeline: the retention window
`period_date >= min_allowed` is applied to the freshly fetched batch only,
before the concatenation (lines 546-548). -/
def mergeWithWindow (existing fetched : List HRecord) (min_allowed : Date) :
    List HRecord :=
  mergeRecords existing
    (fetched.filter fun r => decide (min_allowed.key ≤ r.period_date.key))

/-- The record builder shared by the transform branch of `main`
(lines 490-500): one `HarmonizedRecord` per transformed observation, with
classification and category from the static maps. -/
def transformRows (metric base_id unit freq : String) (tdf : List Obs) :
    List HRecord :=
  tdf.map fun o =>
    { metric_name := some metric
      series_id := some base_id
      type_ := some (DEFAULT_TYPE_MAP metric)
      category := some (DEFAULT_CATEGORY_MAP metric)
      unit := some unit
      frequency := some freq
      value := o.value
      period_date := o.date }

/-- The `yoy_pct` / `mom_pct` / `gdp_qoq_annualized` branch of `main`
(lines 479-503): empty fetches are skipped, otherwise the transform output
is emitted row by row with the unit/frequency of the computation spec. -/
def transformBranch (metric : String) (kind : TKind)
    (base_id unit freq : String) (base_df : List Obs) : List HRecord :=
  if base_df = [] then []
  else transformRows metric base_id unit freq (compute_transform kind base_df)

/-- The direct-fetch branch of `main` (lines 505-536): weekly series run
through `align_weekly_to_month_end`, daily series through the month-start
grouping, and everything else (monthly, quarterly, ...) passes through
unchanged. -/
def directBranch (metric fred_id info_frequency info_unit : String)
    (ser_df : List Obs) : List HRecord :=
  if ser_df = [] then []
  else
    let step1 : List Obs × String :=
      if info_frequency = "Weekly" then (align_weekly_to_month_end ser_df, "Monthly")
      else (ser_df, info_frequency)
    let step2 : List Obs × String :=
      if step1.2 = "Daily" then (dailyToMonthly step1.1, "Monthly")
      else step1
    step2.1.map fun o =>
      { metric_name := some metric
        series_id := some fred_id
        type_ := some (DEFAULT_TYPE_MAP metric)
        category := some (DEFAULT_CATEGORY_MAP metric)
        unit := some info_unit
        frequency := some step2.2
        value := o.value
        period_date := o.date }

/-- The `"spread"` branch of `main` (lines 434-463): skipped when either
input is empty, otherwise the spread series is emitted with the combined
series id and frequency `"Monthly"`. -/
def spreadBranch (metric id_a id_b unit : String) (a b : List Obs) :
    List HRecord :=
  if a = [] ∨ b = [] then []
  else
    (spreadCompute a b).map fun o =>
      { metric_name := some metric
        series_id := some (id_a ++ "-" ++ id_b)
        type_ := some (DEFAULT_TYPE_MAP metric)
        category := some (DEFAULT_CATEGORY_MAP metric)
        unit := some unit
        frequency := some "Monthly"
        value := o.value
        period_date := o.date }

/-- A row of the `historical_economic_data` table as the row-by-row import
scripts write it (timestamps of `created_at` are outside the model). -/
structure DBRow where
  series_id : String
  indicator : String
  value : ℚ
  category : String
  frequency : String
  period_date : Date
  unit : String
deriving DecidableEq, Repr

/-- A CSV row as consumed by `import_economic_data` /
`import_comprehensive_data`; `value` and `period_date` may be missing. -/
structure CsvRow where
  metric_name : String
  series_id : String
  category : String
  frequency : String
  unit : String
  value : Option ℚ
  period_date : Option Date
deriving DecidableEq, Repr

/-- The `SELECT COUNT(*) ... WHERE series_id = %s AND period_date = %s`
existence probe. -/
def keyExists (st : List DBRow) (sid : String) (d : Date) : Bool :=
  st.any fun x => decide (x.series_id = sid) && decide (x.period_date = d)

/-- One loop iteration of the import scripts: rows with missing value or
date are skipped; on a `(series_id, period_date)` hit the row is only
counted (`updated_records += 1` — no UPDATE is ever issued); otherwise it
is inserted. -/
def importStep (acc : List DBRow × Nat × Nat) (r : CsvRow) :
    List DBRow × Nat × Nat :=
  match r.value, r.period_date with
  | some v, some d =>
      if keyExists acc.1 r.series_id d then (acc.1, acc.2.1, acc.2.2 + 1)
      else
        (acc.1 ++
          [{ series_id := r.series_id
             indicator := r.metric_name
             value := v
             category := r.category
             frequency := r.frequency.toLower
             period_date := d
             unit := r.unit }],
          acc.2.1 + 1, acc.2.2)
  | _, _ => acc

/-- `import_economic_data` (and, identically for this property,
`import_comprehensive_data`): fold the CSV into the store, returning the
final store together with `(new_records, updated_records)`. -/
def import_economic_data (store : List DBRow) (rows : List CsvRow) :
    List DBRow × Nat × Nat :=
  rows.foldl importStep (store, 0, 0)

instance : Inhabited HRecord :=
  ⟨⟨none, none, none, none, none, none, PVal.na, ⟨0, 0, 0⟩⟩⟩

/-- The 13-month base series of the spec's YoY example: twelve readings of
100 followed by one reading of 110, on consecutive month-start dates. -/
def yoyExampleBase : List Obs :=
  [⟨⟨2023, 1, 1⟩, PVal.num 100⟩, ⟨⟨2023, 2, 1⟩, PVal.num 100⟩,
   ⟨⟨2023, 3, 1⟩, PVal.num 100⟩, ⟨⟨2023, 4, 1⟩, PVal.num 100⟩,
   ⟨⟨2023, 5, 1⟩, PVal.num 100⟩, ⟨⟨2023, 6, 1⟩, PVal.num 100⟩,
   ⟨⟨2023, 7, 1⟩, PVal.num 100⟩, ⟨⟨2023, 8, 1⟩, PVal.num 100⟩,
   ⟨⟨2023, 9, 1⟩, PVal.num 100⟩, ⟨⟨2023, 10, 1⟩, PVal.num 100⟩,
   ⟨⟨2023, 11, 1⟩, PVal.num 100⟩, ⟨⟨2023, 12, 1⟩, PVal.num 100⟩,
   ⟨⟨2024, 1, 1⟩, PVal.num 110⟩]

/-- The spec's daily→monthly normalization example input. -/
def dailyExample : List Obs :=
  [⟨⟨2024, 1, 5⟩, PVal.num 1⟩, ⟨⟨2024, 1, 31⟩, PVal.num 2⟩,
   ⟨⟨2024, 2, 10⟩, PVal.num 3⟩]

/-- A record whose `unit` column carries surrounding whitespace, as a raw
CSV or API payload may. -/
def rawUnitRecord : HRecord :=
  { metric_name := some "Core CPI"
    series_id := some "CPILFESL"
    type_ := some "lagging"
    category := some "Inflation"
    unit := some " Index 1982-1984=100 "
    frequency := some "Monthly"
    value := PVal.num 320
    period_date := ⟨2024, 1, 1⟩ }

/-- A fully normalized record of the existing store. -/
def cleanRecA : HRecord :=
  { metric_name := some "Core CPI"
    series_id := some "CPILFESL"
    type_ := some "lagging"
    category := some "Inflation"
    unit := some "Index 1982-1984=100"
    frequency := some "Monthly"
    value := PVal.num 310
    period_date := ⟨2015, 6, 1⟩ }

/-- A fully normalized record of an incoming batch. -/
def cleanRecB : HRecord :=
  { metric_name := some "Unemployment Rate"
    series_id := some "UNRATE"
    type_ := some "lagging"
    category := some "Labor"
    unit := some "Percent"
    frequency := some "Monthly"
    value := PVal.num 4
    period_date := ⟨2024, 5, 1⟩ }

/-- A stored database row used to exercise the import scripts. -/
def dbRow0 : DBRow :=
  { series_id := "UNRATE"
    indicator := "Unemployment Rate"
    value := 39
    category := "Labor"
    frequency := "monthly"
    period_date := ⟨2024, 5, 1⟩
    unit := "Percent" }

/-- An incoming CSV row carrying a retroactive correction for the same
`(series_id, period_date)` key as `dbRow0`. -/
def csvRow0 : CsvRow :=
  { metric_name := "Unemployment Rate"
    series_id := "UNRATE"
    category := "Labor"
    frequency := "Monthly"
    unit := "Percent"
    value := some 41
    period_date := some ⟨2024, 5, 1⟩ }

instance : IsTotal HRecord recLe :=
  ⟨fun a b => le_total (recKey a) (recKey b)⟩

instance : IsTrans HRecord recLe :=
  ⟨fun _ _ _ hab hbc => le_trans hab hbc⟩

instance : IsTotal Obs obsLe :=
  ⟨fun a b => le_total a.date.key b.date.key⟩

instance : IsTrans Obs obsLe :=
  ⟨fun _ _ _ hab hbc => le_trans hab hbc⟩

instance : IsTotal Date dateLe :=
  ⟨fun a b => le_total a.key b.key⟩

instance : IsTrans Date dateLe :=
  ⟨fun _ _ _ hab hbc => le_trans hab hbc⟩

/-- Membership is unchanged by `drop_duplicates(keep="last")`. -/
theorem mem_dedupLast {α : Type} [DecidableEq α] {a : α} :
    ∀ {l : List α}, a ∈ dedupLast l ↔ a ∈ l := by
  intro l
  induction l with
  | nil => simp [dedupLast]
  | cons x xs ih =>
    by_cases hx : x ∈ xs
    · rw [dedupLast, if_pos hx]
      simp only [List.mem_cons, ih]
      constructor
      · exact Or.inr
      · rintro (rfl | h)
        · exact hx
        · exact h
    · rw [dedupLast, if_neg hx]
      simp [ih]

/-- `drop_duplicates` output has no duplicates. -/
theorem nodup_dedupLast {α : Type} [DecidableEq α] :
    ∀ (l : List α), (dedupLast l).Nodup := by
  intro l
  induction l with
  | nil => simp [dedupLast]
  | cons x xs ih =>
    by_cases hx : x ∈ xs
    · rw [dedupLast, if_pos hx]; exact ih
    · rw [dedupLast, if_neg hx]
      exact List.Nodup.cons (fun h => hx (mem_dedupLast.mp h)) ih

/-- `drop_duplicates` leaves a duplicate-free list unchanged. -/
theorem dedupLast_eq_self {α : Type} [DecidableEq α] :
    ∀ {l : List α}, l.Nodup → dedupLast l = l := by
  intro l
  induction l with
  | nil => intro _; rfl
  | cons x xs ih =>
    intro h
    rw [dedupLast, if_neg (List.nodup_cons.mp h).1, ih (List.nodup_cons.mp h).2]

/-- `drop_duplicates(keep="last")` on a concatenation: a row of the left
part survives exactly when it is not repeated later (in the left remainder
or anywhere in the right part). -/
theorem dedupLast_append {α : Type} [DecidableEq α] :
    ∀ (x y : List α),
      dedupLast (x ++ y) =
        (dedupLast x).filter (fun a => decide (a ∉ y)) ++ dedupLast y := by
  intro x y
  induction x with
  | nil => simp [dedupLast]
  | cons a x ih =>
    by_cases hax : a ∈ x
    · have : a ∈ x ++ y := List.mem_append_left y hax
      rw [List.cons_append, dedupLast, if_pos this, ih, dedupLast, if_pos hax]
    · by_cases hay : a ∈ y
      · have : a ∈ x ++ y := List.mem_append_right x hay
        rw [List.cons_append, dedupLast, if_pos this, ih, dedupLast, if_neg hax]
        simp [List.filter_cons, hay]
      · have : a ∉ x ++ y := by
          simp [List.mem_append, hax, hay]
        rw [List.cons_append, dedupLast, if_neg this, ih, dedupLast, if_neg hax]
        simp [List.filter_cons, hay]

section StableSortLemmas

variable {α : Type} (r : α → α → Prop) [DecidableRel r]

/-- Inserting an element below the whole list puts it in front. -/
theorem orderedInsert_of_forall_rel {a : α} {M : List α}
    (h : ∀ x ∈ M, r a x) : List.orderedInsert r a M = a :: M := by
  cases M with
  | nil => rfl
  | cons b L => simp [List.orderedInsert, h b (List.mem_cons_self b L)]

/-- `filter` commutes with a single ordered insertion into a sorted list. -/
theorem filter_orderedInsert [IsTrans α r] (p : α → Bool) (a : α) :
    ∀ (L : List α), List.Sorted r L →
      (List.orderedInsert r a L).filter p =
        if p a then List.orderedInsert r a (L.filter p) else L.filter p := by
  intro L
  induction L with
  | nil => intro _; cases hpa : p a <;> simp [List.orderedInsert, hpa]
  | cons b L ih =>
    intro hL
    by_cases hab : r a b
    · have hall : ∀ x ∈ b :: L, r a x := by
        intro x hx
        rcases List.mem_cons.mp hx with hx | hx
        · exact hx ▸ hab
        · exact IsTrans.trans _ _ _ hab (List.rel_of_sorted_cons hL x hx)
      have hall2 : ∀ x ∈ (b :: L).filter p, r a x := fun x hx =>
        hall x (List.mem_filter.mp hx).1
      rw [List.orderedInsert_of_le r _ hab]
      cases hpa : p a
      · simp [List.filter_cons, hpa]
      · rw [if_pos rfl, orderedInsert_of_forall_rel r hall2]
        simp [List.filter_cons, hpa]
    · have hstep : List.orderedInsert r a (b :: L) = b :: List.orderedInsert r a L := by
        simp [List.orderedInsert, hab]
      rw [hstep]
      have ihL := ih (List.Sorted.of_cons hL)
      cases hpa : p a <;> cases hpb : p b <;>
        simp [List.filter_cons, hpa, hpb, ihL, List.orderedInsert, hab]

/-- `filter` commutes with the stable sort. -/
theorem filter_insertionSort [IsTotal α r] [IsTrans α r] (p : α → Bool) :
    ∀ (l : List α),
      (List.insertionSort r l).filter p = List.insertionSort r (l.filter p) := by
  intro l
  induction l with
  | nil => rfl
  | cons a l ih =>
    have hs : List.Sorted r (List.insertionSort r l) := List.sorted_insertionSort r l
    rw [List.insertionSort, filter_orderedInsert r p a _ hs, ih]
    cases hpa : p a
    · simp [List.filter_cons, hpa]
    · simp [List.filter_cons, hpa, List.insertionSort]

/-- Two ordered insertions of strictly comparable elements commute. -/
theorem orderedInsert_swap [IsTrans α r] {z a : α} (hza : r z a) (hnaz : ¬r a z) :
    ∀ (M : List α),
      List.orderedInsert r a (List.orderedInsert r z M) =
        List.orderedInsert r z (List.orderedInsert r a M) := by
  intro M
  induction M with
  | nil => simp [List.orderedInsert, hza, hnaz]
  | cons b M ih =>
    by_cases hzb : r z b
    · by_cases hab : r a b
      · simp [List.orderedInsert, hza, hnaz, hzb, hab]
      · simp [List.orderedInsert, hza, hnaz, hzb, hab]
    · have hab : ¬r a b := by
        intro hab
        exact hzb (IsTrans.trans _ _ _ hza hab)
      simp only [List.orderedInsert, if_neg hzb, if_neg hab]
      rw [ih]

/-- Folding ordered insertions over a block of elements strictly below `a`
commutes with inserting `a` first. -/
theorem foldr_orderedInsert_below [IsTrans α r] {a : α} :
    ∀ (t : List α), (∀ z ∈ t, r z a ∧ ¬r a z) → ∀ (B : List α),
      List.foldr (List.orderedInsert r) (List.orderedInsert r a B) t =
        List.orderedInsert r a (List.foldr (List.orderedInsert r) B t) := by
  intro t
  induction t with
  | nil => intro _ B; rfl
  | cons z t ih =>
    intro h B
    have hz := h z (List.mem_cons_self z t)
    have ht : ∀ x ∈ t, r x a ∧ ¬r a x := fun x hx => h x (List.mem_cons_of_mem z hx)
    simp only [List.foldr_cons]
    rw [ih ht B, orderedInsert_swap r hz.1 hz.2]

/-- Ordered insertion commutes through a fold of ordered insertions. -/
theorem foldr_orderedInsert_orderedInsert [IsTotal α r] [IsTrans α r]
    (a : α) (L B : List α) :
    List.foldr (List.orderedInsert r) B (List.orderedInsert r a L) =
      List.orderedInsert r a (List.foldr (List.orderedInsert r) B L) := by
  rw [List.orderedInsert_eq_take_drop]
  rw [List.foldr_append]
  simp only [List.foldr_cons]
  have htake : ∀ z ∈ L.takeWhile (fun b => decide ¬(r a b)), r z a ∧ ¬r a z := by
    intro z hz
    have hp := List.mem_takeWhile_imp hz
    have hnaz : ¬r a z := by simpa using hp
    rcases IsTotal.total (r := r) z a with h | h
    · exact ⟨h, hnaz⟩
    · exact absurd h hnaz
  rw [foldr_orderedInsert_below r _ htake]
  congr 1
  conv_rhs => rw [show L = L.takeWhile (fun b => decide ¬(r a b)) ++
    L.dropWhile (fun b => decide ¬(r a b)) from
    (List.takeWhile_append_dropWhile _ _).symm]
  rw [List.foldr_append]

/-- Pre-sorting the list being folded does not change the result of a fold
of ordered insertions. -/
theorem foldr_orderedInsert_insertionSort [IsTotal α r] [IsTrans α r] :
    ∀ (u B : List α),
      List.foldr (List.orderedInsert r) B (List.insertionSort r u) =
        List.foldr (List.orderedInsert r) B u := by
  intro u
  induction u with
  | nil => intro B; rfl
  | cons a u ih =>
    intro B
    rw [List.insertionSort, foldr_orderedInsert_orderedInsert r a _ B, ih B,
      List.foldr_cons]

/-- Insertion sort of a concatenation folds the left part into the sorted
right part. -/
theorem insertionSort_append :
    ∀ (x y : List α),
      List.insertionSort r (x ++ y) =
        List.foldr (List.orderedInsert r) (List.insertionSort r y) x := by
  intro x y
  induction x with
  | nil => rfl
  | cons a x ih => rw [List.cons_append, List.insertionSort, ih, List.foldr_cons]

/-- Pre-sorting a prefix does not change the stable sort of a
concatenation. -/
theorem insertionSort_sorted_prefix [IsTotal α r] [IsTrans α r] (u v : List α) :
    List.insertionSort r (List.insertionSort r u ++ v) =
      List.insertionSort r (u ++ v) := by
  rw [insertionSort_append, insertionSort_append, foldr_orderedInsert_insertionSort]

end StableSortLemmas

/-- Mapping the merge normalization over already-normalized records is the
identity. -/
theorem map_normalize_of_normalized (l : List HRecord)
    (h : ∀ x ∈ l, normalizedRec x) : l.map normalizeRec = l := by
  induction l with
  | nil => rfl
  | cons x xs ih =>
    rw [List.map_cons, h x (List.mem_cons_self x xs),
      ih fun a ha => h a (List.mem_cons_of_mem x ha)]

/-- C1 (amended).  Merging the same incoming batch twice yields the same
result as merging it once, PROVIDED every record of `existing` and
`incoming` is already string-normalized (trimmed, non-null string
columns).  Raw batches whose string cells need trimming or null-filling
break idempotence, because `drop_duplicates` runs on the raw tuples while
the output carries normalized ones (see the counterexample). -/
theorem merge_idempotent_of_normalized (e i : List HRecord)
    (he : ∀ x ∈ e, normalizedRec x) (hi : ∀ x ∈ i, normalizedRec x) :
    mergeRecords (mergeRecords e i) i = mergeRecords e i := by
  have hei : ∀ x ∈ e ++ i, normalizedRec x := by
    intro x hx
    rcases List.mem_append.mp hx with h | h
    · exact he x h
    · exact hi x h
  have hD : ∀ x ∈ dedupLast (e ++ i), normalizedRec x := fun x hx =>
    hei x (mem_dedupLast.mp hx)
  have hmap : (dedupLast (e ++ i)).map normalizeRec = dedupLast (e ++ i) :=
    map_normalize_of_normalized _ hD
  have hm2 : mergeRecords e i = List.insertionSort recLe (dedupLast (e ++ i)) := by
    rw [mergeRecords, hmap]
  have hmmem : ∀ x ∈ mergeRecords e i, normalizedRec x := by
    intro x hx
    rw [hm2] at hx
    exact hD x ((List.mem_insertionSort recLe).mp hx)
  have hmnodup : (mergeRecords e i).Nodup := by
    rw [hm2]
    exact ((List.perm_insertionSort recLe _).nodup_iff).mpr (nodup_dedupLast _)
  have hmi : ∀ x ∈ mergeRecords e i ++ i, normalizedRec x := by
    intro x hx
    rcases List.mem_append.mp hx with h | h
    · exact hmmem x h
    · exact hi x h
  have hmapmi : (dedupLast (mergeRecords e i ++ i)).map normalizeRec =
      dedupLast (mergeRecords e i ++ i) :=
    map_normalize_of_normalized _ (fun x hx => hmi x (mem_dedupLast.mp hx))
  have hfilter : (mergeRecords e i).filter (fun a => decide (a ∉ i)) =
      List.insertionSort recLe
        ((dedupLast e).filter (fun a => decide (a ∉ i))) := by
    rw [hm2, filter_insertionSort recLe]
    congr 1
    rw [dedupLast_append e i, List.filter_append, List.filter_filter]
    have h1 : (dedupLast e).filter
        (fun a => decide (a ∉ i) && decide (a ∉ i)) =
        (dedupLast e).filter (fun a => decide (a ∉ i)) :=
      List.filter_congr (fun x _ => Bool.and_self _)
    have h2 : (dedupLast i).filter (fun a => decide (a ∉ i)) = [] := by
      rw [List.filter_eq_nil_iff]
      intro a ha
      simp [mem_dedupLast.mp ha]
    rw [h1, h2, List.append_nil]
  conv_lhs => rw [mergeRecords, hmapmi, dedupLast_append _ i,
    dedupLast_eq_self hmnodup, hfilter, insertionSort_sorted_prefix recLe,
    ← dedupLast_append e i, ← hm2]

/-- Witness for C1: a concrete normalized store and batch where the
theorem applies. -/
theorem merge_idempotent_of_normalized_witness :
    (∀ x ∈ [cleanRecA], normalizedRec x) ∧
    (∀ x ∈ [cleanRecB], normalizedRec x) ∧
    mergeRecords (mergeRecords [cleanRecA] [cleanRecB]) [cleanRecB] =
      mergeRecords [cleanRecA] [cleanRecB] :=
  ⟨by decide, by decide,
    merge_idempotent_of_normalized [cleanRecA] [cleanRecB]
      (by decide) (by decide)⟩

/-- Counterexample for C1 as frozen: with an incoming batch whose `unit`
cell carries whitespace, merging twice produces a duplicated row, so the
unconditional idempotence claim is false on the code. -/
theorem merge_idempotent_raw_counterexample :
    mergeRecords (mergeRecords [] [rawUnitRecord]) [rawUnitRecord] ≠
      mergeRecords [] [rawUnitRecord] := by
  decide

/-- C2 (amended).  Every existing record that is already string-normalized
and whose exact tuple is absent from the (windowed) incoming batch appears
in the merge output; the retention window filters only the freshly fetched
batch, so it never removes existing-only history.  (Records whose string
cells are unnormalized reappear only in trimmed/filled form, see the
counterexample.) -/
theorem merge_preserves_existing_of_normalized (e f : List HRecord)
    (m : Date) (r : HRecord) (hr : r ∈ e) (hn : normalizedRec r)
    (hni : r ∉ f.filter fun x => decide (m.key ≤ x.period_date.key)) :
    r ∈ mergeWithWindow e f m := by
  have hmem : r ∈ e ++ f.filter fun x => decide (m.key ≤ x.period_date.key) :=
    List.mem_append_left _ hr
  simp only [mergeWithWindow, mergeRecords]
  exact (List.mem_insertionSort recLe).mpr
    (List.mem_map.mpr ⟨r, mem_dedupLast.mpr hmem, hn⟩)

/-- Witness for C2: an existing row dated before the retention cutoff and
absent from the incoming batch survives the windowed merge. -/
theorem merge_preserves_existing_witness :
    cleanRecA ∈ ([cleanRecA] : List HRecord) ∧
    cleanRecA ∈ mergeWithWindow [cleanRecA] [cleanRecB] ⟨2020, 1, 1⟩ :=
  ⟨by decide,
    merge_preserves_existing_of_normalized [cleanRecA] [cleanRecB]
      ⟨2020, 1, 1⟩ cleanRecA (by decide) (by decide) (by decide)⟩

/-- Counterexample for C2 as frozen: an existing row with an untrimmed
`unit` cell does NOT appear unchanged in the merge output — only its
normalized form does. -/
theorem merge_rewrites_untrimmed_row :
    rawUnitRecord ∉ mergeWithWindow [rawUnitRecord] [] ⟨2015, 1, 1⟩ ∧
    mergeWithWindow [rawUnitRecord] [] ⟨2015, 1, 1⟩ =
      [normalizeRec rawUnitRecord] := by
  exact ⟨by decide, by decide⟩

/-- Merging two distinct normalized records keeps both of them. -/
theorem mergeRecords_pair (a b : HRecord) (hne : a ≠ b)
    (h₁ : normalizedRec a) (h₂ : normalizedRec b) :
    (mergeRecords [a] [b]).length = 2 ∧
    a ∈ mergeRecords [a] [b] ∧ b ∈ mergeRecords [a] [b] := by
  have h1e : normalizeRec a = a := h₁
  have h2e : normalizeRec b = b := h₂
  have hd : dedupLast ([a] ++ [b]) = [a, b] := by
    show dedupLast [a, b] = [a, b]
    rw [dedupLast, if_neg (by simp [hne]), dedupLast, if_neg (by simp),
      dedupLast]
  have hmerge : mergeRecords [a] [b] =
      List.insertionSort recLe [a, b] := by
    rw [mergeRecords, hd, List.map_cons, List.map_cons, List.map_nil, h1e, h2e]
  rw [hmerge]
  exact ⟨List.length_insertionSort recLe [a, b],
    (List.mem_insertionSort recLe).mpr (by simp),
    (List.mem_insertionSort recLe).mpr (by simp)⟩

/-- Updating the (non-string) value cell preserves normalization. -/
theorem normalizedRec_set_value {r : HRecord} (hn : normalizedRec r)
    (v : PVal) : normalizedRec { r with value := v } := by
  have h : normalizeRec r = r := hn
  show normalizeRec _ = _
  cases r
  simp only [normalizeRec, HRecord.mk.injEq] at h ⊢
  exact ⟨h.1, h.2.1, h.2.2.1, h.2.2.2.1, h.2.2.2.2.1, h.2.2.2.2.2.1,
    trivial, trivial⟩

/-- Updating `series_id` to a trimmed string preserves normalization. -/
theorem normalizedRec_set_series {r : HRecord} (hn : normalizedRec r)
    {s : String} (hs : pyStrip s = s) :
    normalizedRec { r with series_id := some s } := by
  have h : normalizeRec r = r := hn
  show normalizeRec _ = _
  cases r
  simp only [normalizeRec, HRecord.mk.injEq, normStr, Option.getD_some] at h ⊢
  exact ⟨h.1, congrArg Option.some hs, h.2.2.1, h.2.2.2.1, h.2.2.2.2.1,
    h.2.2.2.2.2.1, trivial, trivial⟩

/-- C3 (amended).  Two input rows identical except for `value` are BOTH
retained by the merge (the dedup key includes `value`, so they do not
collapse), and two rows identical except for `series_id` are likewise both
retained. -/
theorem merge_retains_both_variants (r : HRecord) (v : PVal) (s : String)
    (hn : normalizedRec r) (hv : v ≠ r.value) (hs : pyStrip s = s)
    (hsne : some s ≠ r.series_id) :
    ((mergeRecords [r] [{ r with value := v }]).length = 2 ∧
      r ∈ mergeRecords [r] [{ r with value := v }] ∧
      { r with value := v } ∈ mergeRecords [r] [{ r with value := v }]) ∧
    ((mergeRecords [r] [{ r with series_id := some s }]).length = 2 ∧
      r ∈ mergeRecords [r] [{ r with series_id := some s }] ∧
      { r with series_id := some s } ∈
        mergeRecords [r] [{ r with series_id := some s }]) := by
  constructor
  · exact mergeRecords_pair r _
      (fun h => hv ((congrArg HRecord.value h).symm))
      hn (normalizedRec_set_value hn v)
  · exact mergeRecords_pair r _
      (fun h => hsne ((congrArg HRecord.series_id h).symm))
      hn (normalizedRec_set_series hn hs)

/-- Witness for C3: a concrete value-variant and series-variant pair, both
fully retained. -/
theorem merge_retains_both_variants_witness :
    cleanRecA ∈
      mergeRecords [cleanRecA] [{ cleanRecA with value := PVal.num 311 }] ∧
    { cleanRecA with value := PVal.num 311 } ∈
      mergeRecords [cleanRecA] [{ cleanRecA with value := PVal.num 311 }] ∧
    (mergeRecords [cleanRecA]
      [{ cleanRecA with series_id := some "CPIAUCSL" }]).length = 2 := by
  have h := merge_retains_both_variants cleanRecA (PVal.num 311) "CPIAUCSL"
    (by decide) (by decide) (by decide) (by decide)
  exact ⟨h.1.2.1, h.1.2.2, h.2.1⟩

/-- Counterexample for C3 as frozen: two rows identical except for `value`
do NOT collapse to the later one — the merge output keeps both. -/
theorem merge_value_variants_not_collapsed :
    mergeRecords [cleanRecA] [{ cleanRecA with value := PVal.num 311 }] ≠
      [{ cleanRecA with value := PVal.num 311 }] ∧
    (mergeRecords [cleanRecA]
      [{ cleanRecA with value := PVal.num 311 }]).length = 2 := by
  exact ⟨by decide, by decide⟩

/-- `keyExists` over an extended store. -/
theorem keyExists_append (st l : List DBRow) (sid : String) (d : Date) :
    keyExists (st ++ l) sid d = (keyExists st sid d || keyExists l sid d) := by
  simp [keyExists, List.any_append]

/-- The import fold only ever appends rows whose key was absent from the
store it started from. -/
theorem import_fold_appends :
    ∀ (rows : List CsvRow) (st : List DBRow) (n u : Nat),
      ∃ added, (rows.foldl importStep (st, n, u)).1 = st ++ added ∧
        ∀ x ∈ added, keyExists st x.series_id x.period_date = false := by
  intro rows
  induction rows with
  | nil =>
    intro st n u
    exact ⟨[], by simp, by simp⟩
  | cons r rest ih =>
    intro st n u
    rw [List.foldl_cons]
    match hv : r.value, hd : r.period_date with
    | some v, some d =>
      by_cases hk : keyExists st r.series_id d
      · have hstep : importStep (st, n, u) r = (st, n, u + 1) := by
          simp [importStep, hv, hd, hk]
        rw [hstep]
        exact ih st n (u + 1)
      · have hkf : keyExists st r.series_id d = false := by
          simpa using hk
        set newRow : DBRow :=
          { series_id := r.series_id
            indicator := r.metric_name
            value := v
            category := r.category
            frequency := r.frequency.toLower
            period_date := d
            unit := r.unit } with hnew
        have hstep : importStep (st, n, u) r = (st ++ [newRow], n + 1, u) := by
          simp [importStep, hv, hd, hkf, hnew]
        rw [hstep]
        obtain ⟨added, heq, habs⟩ := ih (st ++ [newRow]) (n + 1) u
        refine ⟨newRow :: added, ?_, ?_⟩
        · rw [heq, List.append_assoc]
          rfl
        · intro x hx
          rcases List.mem_cons.mp hx with rfl | hx
          · exact hkf
          · have hfa := habs x hx
            rw [keyExists_append] at hfa
            exact (Bool.or_eq_false_iff.mp hfa).1
    | none, _ =>
      have hstep : importStep (st, n, u) r = (st, n, u) := by
        simp [importStep, hv]
      rw [hstep]
      exact ih st n u
    | some v, none =>
      have hstep : importStep (st, n, u) r = (st, n, u) := by
        simp [importStep, hv, hd]
      rw [hstep]
      exact ih st n u

/-- C10 (confirmed).  In the row-by-row database import scripts, an
incoming record whose `(series_id, period_date)` key already exists in
the store is only counted and never written: every row the run adds has a
fresh key, so the stored rows for any occupied key are exactly what they
were before the run — retroactive corrections in the CSV never reach the
store. -/
theorem import_skips_existing_keys (store : List DBRow) (rows : List CsvRow)
    (sid : String) (d : Date) (hocc : keyExists store sid d = true) :
    (import_economic_data store rows).1.filter
        (fun x => decide (x.series_id = sid) && decide (x.period_date = d)) =
      store.filter
        (fun x => decide (x.series_id = sid) && decide (x.period_date = d)) ∧
    ∃ added, (import_economic_data store rows).1 = store ++ added := by
  obtain ⟨added, heq, habs⟩ := import_fold_appends rows store 0 0
  have heq2 : (import_economic_data store rows).1 = store ++ added := heq
  constructor
  · rw [heq2, List.filter_append]
    have hnil : added.filter
        (fun x => decide (x.series_id = sid) && decide (x.period_date = d)) =
        [] := by
      rw [List.filter_eq_nil_iff]
      intro a ha hpa
      have hsplit : a.series_id = sid ∧ a.period_date = d := by
        simpa using hpa
      have hfa := habs a ha
      rw [hsplit.1, hsplit.2, hocc] at hfa
      exact Bool.true_eq_false.mp hfa
    rw [hnil, List.append_nil]
  · exact ⟨added, heq2⟩

/-- Witness for C10: a store holding `UNRATE @ 2024-05-01 = 39` and a CSV
carrying a corrected value `41` for the same key; after the import the
stored rows for that key are unchanged. -/
theorem import_skips_existing_keys_witness :
    (import_economic_data [dbRow0] [csvRow0]).1.filter
        (fun x => decide (x.series_id = "UNRATE") &&
          decide (x.period_date = (⟨2024, 5, 1⟩ : Date))) = [dbRow0] :=
  (import_skips_existing_keys [dbRow0] [csvRow0] "UNRATE" ⟨2024, 5, 1⟩
    (by decide)).1.trans (by decide)

/-- C5 (code-bug evaluation).  On the spec's example input the daily→
monthly normalization keeps the last value of each month but re-dates it
to the FIRST day of the month — `to_period("M").to_timestamp("M")` anchors
at the period start — not to the month end announced by the code's own
comments ("align daily to month-end") and by the spec. -/
theorem daily_normalization_month_start_eval :
    dailyToMonthly dailyExample =
      [⟨⟨2024, 1, 1⟩, PVal.num 2⟩, ⟨⟨2024, 2, 1⟩, PVal.num 3⟩] ∧
    dailyToMonthly dailyExample ≠
      [⟨⟨2024, 1, 31⟩, PVal.num 2⟩, ⟨⟨2024, 2, 29⟩, PVal.num 3⟩] := by
  exact ⟨by decide, by decide⟩

/-- The dates of a zip of dates with values are the dates, when the value
column is at least as long. -/
theorem map_date_zipWith_mk :
    ∀ (as : List Date) (bs : List PVal), as.length = bs.length →
      (List.zipWith (fun d v => Obs.mk d v) as bs).map (·.date) = as := by
  intro as
  induction as with
  | nil => intro bs _; simp
  | cons a as ih =>
    intro bs h
    cases bs with
    | nil => simp at h
    | cons b bs =>
      simp only [List.zipWith_cons_cons, List.map_cons]
      rw [ih bs (by simpa using h)]

/-- `pct_change` preserves the row count. -/
theorem length_pctChangeVals (n : Nat) (vs : List PVal) :
    (pctChangeVals n vs).length = vs.length := by
  simp [pctChangeVals]

/-- The annualized-QoQ column preserves the row count. -/
theorem length_qoqAnnualizedVals (vs : List PVal) :
    (qoqAnnualizedVals vs).length = vs.length := by
  simp [qoqAnnualizedVals]

/-- Every derived transform keeps the dates of the (sorted) base series
unchanged — no re-anchoring to any month boundary happens there. -/
theorem compute_transform_dates (k : TKind) (df : List Obs) :
    (compute_transform k df).map (·.date) = (sortObs df).map (·.date) := by
  cases k <;>
    · simp only [compute_transform]
      apply map_date_zipWith_mk
      simp [length_pctChangeVals, length_qoqAnnualizedVals]

/-- Every month key produced by the grouping is a first-of-month date. -/
theorem monthKeys_day_one (df : List Obs) :
    ∀ k ∈ monthKeys df, k.day = 1 := by
  intro k hk
  have h1 := (List.mem_insertionSort dateLe).mp hk
  have h2 := List.mem_dedup.mp h1
  obtain ⟨o, _, rfl⟩ := List.mem_map.mp h2
  rfl

/-- C6 (amended).  The daily/weekly normalization paths anchor
`period_date` at the FIRST day of the month (never the last), and the
derived transforms keep the base series' own observation dates unchanged;
no path of the pipeline anchors monthly records at month end. -/
theorem period_date_anchor_amended (df : List Obs) (k : TKind) :
    (∀ o ∈ dailyToMonthly df, o.date.day = 1) ∧
    (∀ o ∈ align_weekly_to_month_end df, o.date.day = 1) ∧
    (compute_transform k df).map (·.date) = (sortObs df).map (·.date) := by
  refine ⟨?_, ?_, compute_transform_dates k df⟩
  · intro o ho
    obtain ⟨kk, hkk, rfl⟩ := List.mem_map.mp ho
    exact monthKeys_day_one df kk hkk
  · intro o ho
    obtain ⟨kk, hkk, rfl⟩ := List.mem_map.mp ho
    cases hm : argmaxDate (df.filter fun o => o.date.monthStart = kk) <;>
      simp [hm, monthKeys_day_one df kk hkk]

/-- Counterexample for C6 as frozen: a directly fetched already-monthly
series keeps its first-of-month observation date, so the pipeline emits a
record with frequency `"Monthly"` whose `period_date` is not the last
calendar day of its month. -/
theorem monthly_record_not_month_end :
    ((directBranch "Unemployment Rate" "UNRATE" "Monthly" "Percent"
        [⟨⟨2024, 6, 1⟩, PVal.num 4⟩]).getD 0 default).frequency =
      some "Monthly" ∧
    ((directBranch "Unemployment Rate" "UNRATE" "Monthly" "Percent"
        [⟨⟨2024, 6, 1⟩, PVal.num 4⟩]).getD 0 default).period_date.isMonthEnd =
      false ∧
    (directBranch "Unemployment Rate" "UNRATE" "Monthly" "Percent"
        [⟨⟨2024, 6, 1⟩, PVal.num 4⟩]).length = 1 := by
  exact ⟨by decide, by decide, by decide⟩

/-- On a strictly date-sorted group, the `idxmax` row is the last row. -/
theorem argmaxDate_strict_sorted :
    ∀ (g : List Obs),
      List.Pairwise (fun a b : Obs => a.date.key < b.date.key) g →
      argmaxDate g = g.getLast? := by
  intro g
  induction g with
  | nil => intro _; rfl
  | cons o rest ih =>
    intro hp
    rw [argmaxDate, ih (List.Pairwise.of_cons hp)]
    cases rest with
    | nil => rfl
    | cons r rs =>
      have hne : r :: rs ≠ [] := by simp
      have hx : (r :: rs).getLast? = some ((r :: rs).getLast hne) :=
        List.getLast?_eq_getLast _ hne
      have hxmem : (r :: rs).getLast hne ∈ r :: rs := List.getLast_mem hne
      have ho : o.date.key < ((r :: rs).getLast hne).date.key :=
        (List.pairwise_cons.mp hp).1 _ hxmem
      rw [hx]
      simp only [if_pos ho]
      rw [List.getLast?_cons_cons, hx]

/-- On a group without missing values, `groupby.last()` is the value of
the last row. -/
theorem lastNonNa_all_present (g : List Obs)
    (hv : ∀ o ∈ g, o.value ≠ PVal.na) :
    lastNonNa (g.map (·.value)) =
      (match g.getLast? with
       | some o => o.value
       | none => PVal.na) := by
  unfold lastNonNa
  have hf : (g.map (·.value)).filter (fun v => v ≠ PVal.na) =
      g.map (·.value) := by
    rw [List.filter_eq_self]
    intro v hvm
    obtain ⟨o, ho, rfl⟩ := List.mem_map.mp hvm
    simpa using hv o ho
  rw [hf, List.getLast?_map]
  cases g.getLast? <;> rfl

/-- C9 (amended).  The weekly→monthly path (`align_weekly_to_month_end`,
`idxmax` of the date) and the daily→monthly path (`groupby(...).last()`)
agree on every sequence with strictly increasing dates and NO missing
values.  They differ on sequences with missing values, because
`groupby.last()` skips nulls while `idxmax` keeps the latest row whatever
its value (see the counterexample). -/
theorem weekly_daily_paths_agree (df : List Obs)
    (hs : List.Pairwise (fun a b : Obs => a.date.key < b.date.key) df)
    (hv : ∀ o ∈ df, o.value ≠ PVal.na) :
    align_weekly_to_month_end df = dailyToMonthly df := by
  unfold align_weekly_to_month_end dailyToMonthly
  apply List.map_congr_left
  intro k _
  have hpf := List.Pairwise.sublist
    (List.filter_sublist (p := fun o => decide (o.date.monthStart = k)) df) hs
  have hvf : ∀ o ∈ df.filter (fun o => o.date.monthStart = k),
      o.value ≠ PVal.na := fun o ho => hv o (List.mem_filter.mp ho).1
  rw [argmaxDate_strict_sorted _ hpf, lastNonNa_all_present _ hvf]
  cases (df.filter (fun o => o.date.monthStart = k)).getLast? <;> rfl

/-- Witness for C9: the two paths agree on the concrete sorted,
fully-present daily example. -/
theorem weekly_daily_paths_agree_witness :
    align_weekly_to_month_end dailyExample = dailyToMonthly dailyExample :=
  weekly_daily_paths_agree dailyExample (by decide) (by decide)

/-- Counterexample for C9 as frozen: with an absent value on the latest
observation of a month, the weekly path keeps the absent value while the
daily path backtracks to the last non-null one — the two code paths are
NOT equivalent on sequences containing absent values. -/
theorem weekly_daily_paths_differ_on_absent :
    align_weekly_to_month_end
        [⟨⟨2024, 1, 5⟩, PVal.num 1⟩, ⟨⟨2024, 1, 31⟩, PVal.na⟩] ≠
      dailyToMonthly
        [⟨⟨2024, 1, 5⟩, PVal.num 1⟩, ⟨⟨2024, 1, 31⟩, PVal.na⟩] ∧
    align_weekly_to_month_end
        [⟨⟨2024, 1, 5⟩, PVal.num 1⟩, ⟨⟨2024, 1, 31⟩, PVal.na⟩] =
      [⟨⟨2024, 1, 1⟩, PVal.na⟩] ∧
    dailyToMonthly
        [⟨⟨2024, 1, 5⟩, PVal.num 1⟩, ⟨⟨2024, 1, 31⟩, PVal.na⟩] =
      [⟨⟨2024, 1, 1⟩, PVal.num 1⟩] := by
  exact ⟨by decide, by decide, by decide⟩

/-- C7 (amended).  The spread alignment is a LEFT nearest join on `a`'s
rows within the 2-day tolerance: every `a`-observation yields exactly one
aligned row (`b`-only observations are discarded); a matched pair yields
`a.value - b.value`; an `a`-observation with no `b`-date within two days
yields a row whose value is ABSENT — it is kept, not discarded, so the
5-days-apart example produces one absent-valued row rather than zero
rows. -/
theorem spread_alignment_amended (a b : List Obs) (da db : Date) (x y : ℚ) :
    (spreadAlign a b).length = a.length ∧
    (dateDist db da ≤ 2 →
      spreadCompute [⟨da, PVal.num x⟩] [⟨db, PVal.num y⟩] =
        [⟨da.monthStart, PVal.num (x - y)⟩]) ∧
    (¬dateDist db da ≤ 2 →
      spreadCompute [⟨da, PVal.num x⟩] [⟨db, PVal.num y⟩] =
        [⟨da.monthStart, PVal.na⟩]) := by
  refine ⟨?_, ?_, ?_⟩
  · simp [spreadAlign, sortObs, List.length_insertionSort]
  · intro h
    simp [spreadCompute, spreadAlign, sortObs, nearestWithin, h,
      dailyToMonthly, monthKeys, lastNonNa, PVal.sub, List.getLast?]
  · intro h
    simp [spreadCompute, spreadAlign, sortObs, nearestWithin, h,
      dailyToMonthly, monthKeys, lastNonNa, PVal.sub, List.getLast?]

/-- Witness for C7: one day apart gives one row valued `3 - 1 = 2`; five
days apart gives one row with an absent value. -/
theorem spread_alignment_amended_witness :
    spreadCompute [⟨⟨2024, 1, 10⟩, PVal.num 3⟩] [⟨⟨2024, 1, 11⟩, PVal.num 1⟩] =
      [⟨⟨2024, 1, 1⟩, PVal.num 2⟩] ∧
    spreadCompute [⟨⟨2024, 1, 10⟩, PVal.num 3⟩] [⟨⟨2024, 1, 15⟩, PVal.num 1⟩] =
      [⟨⟨2024, 1, 1⟩, PVal.na⟩] := by
  constructor
  · have h := (spread_alignment_amended [] [] ⟨2024, 1, 10⟩ ⟨2024, 1, 11⟩
      3 1).2.1 (by decide)
    refine h.trans ?_
    have hq : (3 : ℚ) - 1 = 2 := by norm_num
    rw [hq]
    rfl
  · exact (spread_alignment_amended [] [] ⟨2024, 1, 10⟩ ⟨2024, 1, 15⟩
      3 1).2.2 (by decide)

/-- Counterexample for C7 as frozen: two single-observation daily series
dated five days apart produce ONE spread row (with an absent value), not
zero rows. -/
theorem spread_no_match_emits_row :
    spreadCompute [⟨⟨2024, 1, 10⟩, PVal.num 3⟩]
        [⟨⟨2024, 1, 15⟩, PVal.num 1⟩] ≠ [] ∧
    (spreadCompute [⟨⟨2024, 1, 10⟩, PVal.num 3⟩]
        [⟨⟨2024, 1, 15⟩, PVal.num 1⟩]).length = 1 := by
  exact ⟨by decide, by decide⟩

/-- Forward-fill is the identity on sequences without missing values. -/
theorem ffillAux_all_present :
    ∀ (c : Option PVal) (vs : List PVal), (∀ v ∈ vs, v ≠ PVal.na) →
      ffillAux c vs = vs := by
  intro c vs
  induction vs generalizing c with
  | nil => intro _; rfl
  | cons v vs ih =>
    intro h
    rw [ffillAux, if_neg (h v (List.mem_cons_self v vs)),
      ih (some v) fun w hw => h w (List.mem_cons_of_mem v hw)]

/-- `fillna(method="pad")` is the identity on fully present sequences. -/
theorem ffill_all_present (vs : List PVal) (h : ∀ v ∈ vs, v ≠ PVal.na) :
    ffill vs = vs :=
  ffillAux_all_present none vs h

/-- Index formula for the `pct_change` column. -/
theorem pctChangeVals_getElem (n : Nat) (vs : List PVal) (i : Nat)
    (hi : i < (pctChangeVals n vs).length) :
    (pctChangeVals n vs)[i] =
      if i < n then PVal.na
      else (((ffill vs).getD i PVal.na).div
        ((ffill vs).getD (i - n) PVal.na)).sub (PVal.num 1) := by
  simp only [pctChangeVals] at hi ⊢
  rw [List.getElem_map, List.getElem_range]

/-- Every derived transform emits exactly one output row per input row —
no row is dropped and no error is possible. -/
theorem compute_transform_length (k : TKind) (df : List Obs) :
    (compute_transform k df).length = df.length := by
  cases k <;>
    simp [compute_transform, length_pctChangeVals, length_qoqAnnualizedVals,
      sortObs, List.length_insertionSort, List.length_zipWith]

/-- C4 (amended).  `yoy_pct` on a date-sorted, fully numeric base emits
one output row PER INPUT ROW (the first twelve rows are emitted with an
ABSENT value, they are not dropped); at position `i ≥ 12` the emitted
value is `(base[i]/base[i-12] - 1) * 100` whenever the divisor is
non-zero, and every row keeps its base date. -/
theorem yoy_emits_all_rows (base : List Obs) (hs : sortObs base = base)
    (hv : ∀ o ∈ base, o.value.isNum = true) (i : Nat)
    (hi : i < base.length) :
    (compute_transform TKind.yoy_pct base).length = base.length ∧
    ((compute_transform TKind.yoy_pct base).getD i default).date =
      (base.getD i default).date ∧
    (i < 12 →
      ((compute_transform TKind.yoy_pct base).getD i default).value =
        PVal.na) ∧
    (∀ p q : ℚ, 12 ≤ i → (base.getD i default).value = PVal.num p →
      (base.getD (i - 12) default).value = PVal.num q → q ≠ 0 →
      ((compute_transform TKind.yoy_pct base).getD i default).value =
        PVal.num ((p / q - 1) * 100)) := by
  have hvals : ∀ v ∈ base.map (fun o => o.value), v ≠ PVal.na := by
    intro v hvm
    obtain ⟨o, ho, rfl⟩ := List.mem_map.mp hvm
    have := hv o ho
    intro hna
    rw [hna] at this
    exact Bool.false_ne_true this
  have hff : ffill (base.map fun o => o.value) = base.map fun o => o.value :=
    ffill_all_present _ hvals
  have hlen : (compute_transform TKind.yoy_pct base).length = base.length :=
    compute_transform_length _ _
  have hi2 : i < (compute_transform TKind.yoy_pct base).length := by
    rw [hlen]; exact hi
  have hpctlen : i < (pctChangeVals 12 (base.map fun o => o.value)).length := by
    rw [length_pctChangeVals, List.length_map]; exact hi
  have hgd : (compute_transform TKind.yoy_pct base).getD i default =
      Obs.mk (base[i].date)
        ((pctChangeVals 12 (base.map fun o => o.value))[i].mul
          (PVal.num 100)) := by
    rw [List.getD_eq_getElem _ _ hi2]
    conv_lhs => simp only [compute_transform, hs]
    rw [List.getElem_zipWith, List.getElem_map, List.getElem_map]
  have hbase_getD : base.getD i default = base[i] :=
    List.getD_eq_getElem _ _ hi
  refine ⟨hlen, ?_, ?_, ?_⟩
  · rw [hgd, hbase_getD]
  · intro h12
    rw [hgd]
    rw [pctChangeVals_getElem _ _ _ hpctlen, if_pos h12]
    rfl
  · intro p q h12 hp hq hq0
    have hi12 : i - 12 < base.length := lt_of_le_of_lt (Nat.sub_le i 12) hi
    rw [hgd, pctChangeVals_getElem _ _ _ hpctlen,
      if_neg (Nat.not_lt.mpr h12), hff]
    have hvp : (base.map fun o => o.value).getD i PVal.na = PVal.num p := by
      rw [List.getD_eq_getElem _ _ (by simpa using hi), List.getElem_map]
      rw [hbase_getD] at hp
      exact hp
    have hvq : (base.map fun o => o.value).getD (i - 12) PVal.na =
        PVal.num q := by
      rw [List.getD_eq_getElem _ _ (by simpa using hi12), List.getElem_map]
      rw [List.getD_eq_getElem _ _ hi12] at hq
      exact hq
    rw [hvp, hvq]
    simp only [PVal.div, if_neg hq0, PVal.sub, PVal.mul]

/-- Witness for C4: on the 13-month example the transform emits 13 rows;
row 0 carries an absent value and row 12 carries exactly 10. -/
theorem yoy_emits_all_rows_witness :
    (compute_transform TKind.yoy_pct yoyExampleBase).length = 13 ∧
    ((compute_transform TKind.yoy_pct yoyExampleBase).getD 0 default).value =
      PVal.na ∧
    ((compute_transform TKind.yoy_pct yoyExampleBase).getD 12 default).value =
      PVal.num 10 := by
  have h0 := yoy_emits_all_rows yoyExampleBase (by decide) (by decide) 0
    (by decide)
  have h12 := yoy_emits_all_rows yoyExampleBase (by decide) (by decide) 12
    (by decide)
  refine ⟨h0.1.trans (by decide), h0.2.2.1 (by decide), ?_⟩
  have hval := h12.2.2.2 110 100 (by decide) (by decide) (by decide)
    (by norm_num)
  rw [hval]
  have h10 : ((110 : ℚ) / 100 - 1) * 100 = 10 := by norm_num
  rw [h10]

/-- Counterexample for C4 as frozen: the first 12 positions DO produce
output rows (with absent values) — the 13-value example yields 13 rows,
not a single row. -/
theorem yoy_first_twelve_rows_emitted :
    (compute_transform TKind.yoy_pct yoyExampleBase).length = 13 ∧
    (compute_transform TKind.yoy_pct yoyExampleBase).length ≠ 1 ∧
    ((compute_transform TKind.yoy_pct yoyExampleBase).getD 0 default).value =
      PVal.na := by
  have hl : (compute_transform TKind.yoy_pct yoyExampleBase).length = 13 :=
    (compute_transform_length _ _).trans (by decide)
  refine ⟨hl, by rw [hl]; decide, by decide⟩

/-- C8 (amended).  Every derived transform always emits one row per input
row and never raises; a percentage step whose divisor is zero yields an
ABSENT value only when the numerator is also zero — with a non-zero
numerator it emits a signed INFINITE numeric value (which `pd.notna`
accepts), not an absent one.  Exhibited on `mom_pct` over a two-row base:
row 0 is emitted absent, and row 1 is `(q/p - 1) * 100`, `±inf`, or
absent according to the divisor and the numerator's sign. -/
theorem transform_division_behavior (base : List Obs) (k : TKind)
    (d₁ d₂ : Date) (p q : ℚ) (hlt : d₁.key < d₂.key) :
    (compute_transform k base).length = base.length ∧
    compute_transform TKind.mom_pct [⟨d₁, PVal.num p⟩, ⟨d₂, PVal.num q⟩] =
      [⟨d₁, PVal.na⟩,
       ⟨d₂, if p = 0 then
              (if 0 < q then PVal.posInf
               else if q < 0 then PVal.negInf else PVal.na)
            else PVal.num ((q / p - 1) * 100)⟩] := by
  refine ⟨compute_transform_length k base, ?_⟩
  have hsort : sortObs [⟨d₁, PVal.num p⟩, ⟨d₂, PVal.num q⟩] =
      [⟨d₁, PVal.num p⟩, ⟨d₂, PVal.num q⟩] := by
    have hle : obsLe ⟨d₁, PVal.num p⟩ ⟨d₂, PVal.num q⟩ := le_of_lt hlt
    simp [sortObs, List.insertionSort, List.orderedInsert, hle]
  have hff : ffill [PVal.num p, PVal.num q] = [PVal.num p, PVal.num q] :=
    ffill_all_present _ (by simp)
  have hexp : compute_transform TKind.mom_pct
      [⟨d₁, PVal.num p⟩, ⟨d₂, PVal.num q⟩] =
      [⟨d₁, PVal.na⟩,
       ⟨d₂, (((PVal.num q).div (PVal.num p)).sub (PVal.num 1)).mul
          (PVal.num 100)⟩] := by
    simp only [compute_transform, hsort, List.map_cons, List.map_nil,
      pctChangeVals, hff]
    rfl
  rw [hexp]
  by_cases hp : p = 0
  · subst hp
    by_cases hq : 0 < q
    · have h100 : (0 : ℚ) < 100 := by norm_num
      simp [PVal.div, hq, PVal.sub, PVal.mul, h100]
    · by_cases hq2 : q < 0
      · have h100 : (0 : ℚ) < 100 := by norm_num
        simp [PVal.div, hq, hq2, PVal.sub, PVal.mul, h100]
      · simp [PVal.div, hq, hq2, PVal.sub, PVal.mul]
  · simp [PVal.div, hp, PVal.sub, PVal.mul]

/-- Witness for C8: the rows are all emitted, and a nonzero value divided
by a zero prior reading produces a positive infinity, passed through as a
numeric (non-absent) cell. -/
theorem transform_division_behavior_witness :
    (compute_transform TKind.yoy_pct yoyExampleBase).length = 13 ∧
    compute_transform TKind.mom_pct
        [⟨⟨2024, 1, 1⟩, PVal.num 0⟩, ⟨⟨2024, 2, 1⟩, PVal.num 100⟩] =
      [⟨⟨2024, 1, 1⟩, PVal.na⟩, ⟨⟨2024, 2, 1⟩, PVal.posInf⟩] := by
  have h := transform_division_behavior yoyExampleBase TKind.yoy_pct
    ⟨2024, 1, 1⟩ ⟨2024, 2, 1⟩ 0 100 (by decide)
  refine ⟨h.1.trans (by decide), ?_⟩
  rw [h.2]
  norm_num

/-- Counterexample for C8 as frozen: a division by zero does NOT produce
an absent value — it emits the numeric sentinel `+inf`, which `pd.notna`
treats as present. -/
theorem div_by_zero_emits_infinite :
    compute_transform TKind.mom_pct
        [⟨⟨2024, 1, 1⟩, PVal.num 0⟩, ⟨⟨2024, 2, 1⟩, PVal.num 100⟩] =
      [⟨⟨2024, 1, 1⟩, PVal.na⟩, ⟨⟨2024, 2, 1⟩, PVal.posInf⟩] ∧
    PVal.posInf ≠ PVal.na ∧ PVal.posInf.notna = true := by
  exact ⟨by decide, by decide, by decide⟩
